import Mathlib

/-!
Verification of the command-routing layer of peru (`peru/main.py`):
the declarative command registry, the longest-match dispatcher, and the
thin command handlers that delegate to collaborator subsystems.

Collaborators that live outside this file's source (the docopt argument
parser, the Runtime object, the resolver, the cache, `tempfile.mkdtemp`)
are modelled as explicit parameters (oracles) of the handler functions,
so that each handler's visible behaviour — which collaborator calls it
makes, with which arguments, what it prints and what it raises — is a
pure function of those parameters.
-/

namespace Peru

/-- A parsed argument value, as produced by docopt: a boolean for a
switch, a string for a single-valued option or positional, a list of
strings for a repeated positional, or none when absent. -/
inductive Value where
  | bool (b : Bool)
  | str (s : String)
  | strs (l : List String)
  | none
deriving DecidableEq, Repr

/-- Python truthiness of a parsed value: `False`, the empty string, the
empty list and `None` are falsy; everything else is truthy. -/
def truthy : Value → Bool
  | .bool b => b
  | .str s => !s.isEmpty
  | .strs l => !l.isEmpty
  | .none => false

/-- The string carried by a string-valued argument (empty otherwise). -/
def getStr : Value → String
  | .str s => s
  | _ => ""

/-- The list carried by a list-valued argument (empty otherwise). -/
def getStrs : Value → List String
  | .strs l => l
  | _ => []

/-- An Argument Model: a mapping from flag/positional names to parsed
values. -/
def Args : Type := String → Value

/-- The eight registered command handlers of `peru/main.py`. -/
inductive Cmd where
  | sync
  | build
  | reup
  | override
  | overrideAdd
  | overrideDelete
  | copy
  | clean
deriving DecidableEq, Repr

/-- The command registry `commands_map`, in registration order (the
order the `@command(...)` decorators run, which is the iteration order
of the Python dict). Each entry maps a command path — the tuple of
token names that must all be truthy — to its handler. -/
def commands_map : List (List String × Cmd) :=
  [ (["sync"], .sync),
    (["build"], .build),
    (["reup"], .reup),
    (["override"], .override),
    (["override", "add"], .overrideAdd),
    (["override", "delete"], .overrideDelete),
    (["copy"], .copy),
    (["clean"], .clean) ]

/-- The candidate matches: the registered entries all of whose path
tokens are truthy in the argument model (the `matches` list comprehension
in `find_matching_command`). -/
def candidates (args : Args) : List (List String × Cmd) :=
  commands_map.filter (fun p => p.1.all (fun c => truthy (args c)))

/-- The selection loop of `find_matching_command`: starting from
`matches[0]`, scan `matches[1:]` and keep the entry whose path is
strictly longer than the best so far. -/
def pickLongest (m : List String × Cmd) (rest : List (List String × Cmd)) :
    List String × Cmd :=
  rest.foldl (fun acc p => if p.1.length > acc.1.length then p else acc) m

/-- `find_matching_command`: collect the candidate entries, return
`None` if there are none, otherwise the handler of the longest match. -/
def find_matching_command (args : Args) : Option Cmd :=
  match candidates args with
  | [] => Option.none
  | m :: rest => Option.some (pickLongest m rest).2

/-- The version string `__version__`. -/
def peruVersion : String := "peru 0.1"

/-- The observable outcome of `Main.run`: either a command was matched
(a `Runtime` execution context is constructed and that command's handler
is invoked), or no command matched and the caller prints either the
version string or the full usage text. -/
inductive RunOutcome where
  | dispatch (c : Cmd)
  | printVersion (s : String)
  | printUsage
deriving DecidableEq, Repr

/-- `Main.run` after docopt parsing: dispatch on `find_matching_command`;
with no match, print the version string when `--version` is truthy and
the usage text otherwise. -/
def Main.run (args : Args) : RunOutcome :=
  match find_matching_command args with
  | Option.some c => .dispatch c
  | Option.none =>
      if truthy (args "--version") then .printVersion peruVersion else .printUsage

/-! ### Dispatcher lemmas -/

theorem pickLongest_mem (m : List String × Cmd) (rest : List (List String × Cmd)) :
    pickLongest m rest ∈ m :: rest := by
  induction rest generalizing m with
  | nil => simp [pickLongest]
  | cons p rest ih =>
      have step : pickLongest m (p :: rest) =
          pickLongest (if p.1.length > m.1.length then p else m) rest := by
        simp [pickLongest]
      rw [step]
      by_cases hl : p.1.length > m.1.length
      · rw [if_pos hl]
        rcases List.mem_cons.1 (ih p) with h' | h'
        · rw [h']
          simp
        · simp [h']
      · rw [if_neg hl]
        rcases List.mem_cons.1 (ih m) with h' | h'
        · rw [h']
          simp
        · simp [h']

theorem pickLongest_ge (m : List String × Cmd) (rest : List (List String × Cmd)) :
    ∀ q ∈ m :: rest, q.1.length ≤ (pickLongest m rest).1.length := by
  induction rest generalizing m with
  | nil =>
      intro q hq
      simp at hq
      simp [pickLongest, hq]
  | cons p rest ih =>
      intro q hq
      have step : pickLongest m (p :: rest) =
          pickLongest (if p.1.length > m.1.length then p else m) rest := by
        simp [pickLongest]
      have hm : m.1.length ≤ (if p.1.length > m.1.length then p else m).1.length := by
        by_cases hl : p.1.length > m.1.length
        · rw [if_pos hl]
          omega
        · rw [if_neg hl]
      have hp : p.1.length ≤ (if p.1.length > m.1.length then p else m).1.length := by
        by_cases hl : p.1.length > m.1.length
        · rw [if_pos hl]
        · rw [if_neg hl]
          omega
      have hself := ih (if p.1.length > m.1.length then p else m)
        (if p.1.length > m.1.length then p else m) (by simp)
      rcases List.mem_cons.1 hq with h' | h'
      · subst h'
        rw [step]
        exact le_trans hm hself
      · rcases List.mem_cons.1 h' with h'' | h''
        · subst h''
          rw [step]
          exact le_trans hp hself
        · rw [step]
          exact ih _ q (List.mem_cons_of_mem _ h'')

theorem find_eq_pick (args : Args) (m : List String × Cmd)
    (rest : List (List String × Cmd)) (h : candidates args = m :: rest) :
    find_matching_command args = Option.some (pickLongest m rest).2 := by
  simp [find_matching_command, h]

/-- Every registered path is a duplicate-free list of tokens. -/
theorem commands_map_paths_nodup : ∀ p ∈ commands_map, p.1.Nodup := by decide

/-- No two registered entries share a handler. -/
theorem commands_map_handlers_nodup : (commands_map.map Prod.snd).Nodup := by decide

/-- The argument model in which every token is truthy. -/
def allTrue : Args := fun _ => Value.bool true

/-- The argument model in which every token is falsy. -/
def allFalse : Args := fun _ => Value.bool false

/-! ### Claims about the dispatcher -/

/-- C1 (counterexample): with `A = ["override"]` and
`B = ["override", "delete"]` registered and `A`'s token set a strict
subset of `B`'s, the all-truthy argument model makes every token of `B`
truthy, yet `find_matching_command` returns the `override add` handler —
not `B`'s handler — because `override add` is the first maximal-length
candidate in registration order. -/
theorem C1_counterexample :
    (["override"], Cmd.override) ∈ commands_map ∧
    (["override", "delete"], Cmd.overrideDelete) ∈ commands_map ∧
    (["override"] : List String).toFinset ⊂
      (["override", "delete"] : List String).toFinset ∧
    (∀ t ∈ (["override", "delete"] : List String), truthy (allTrue t) = true) ∧
    find_matching_command allTrue = Option.some Cmd.overrideAdd ∧
    find_matching_command allTrue ≠ Option.some Cmd.overrideDelete := by
  exact ⟨by decide, by decide, by decide, by decide, by decide, by decide⟩

/-- C1 (amended): for registered paths `A`, `B` with `A`'s token set a
strict subset of `B`'s, and any argument model making every token of `B`
truthy, `find_matching_command` returns the handler of some candidate
path at least as long as `B` (hence strictly longer than `A`); in
particular it never returns `A`'s handler — though the selected handler
may belong to a different maximal-length candidate than `B`. -/
theorem C1_longest_match (A B : List String) (hA hB : Cmd) (args : Args)
    (hAmem : (A, hA) ∈ commands_map) (hBmem : (B, hB) ∈ commands_map)
    (hsub : A.toFinset ⊂ B.toFinset)
    (htr : ∀ t ∈ B, truthy (args t) = true) :
    find_matching_command args ≠ Option.some hA ∧
    ∃ P h, find_matching_command args = Option.some h ∧ (P, h) ∈ commands_map ∧
      (∀ t ∈ P, truthy (args t) = true) ∧ B.length ≤ P.length ∧ h ≠ hA := by
  have hBc : (B, hB) ∈ candidates args := by
    refine List.mem_filter.2 ⟨hBmem, ?_⟩
    simpa [List.all_eq_true] using htr
  obtain ⟨m, rest, hc⟩ : ∃ m rest, candidates args = m :: rest := by
    cases hcand : candidates args with
    | nil =>
        rw [hcand] at hBc
        simp at hBc
    | cons m rest => exact ⟨m, rest, rfl⟩
  have hfind := find_eq_pick args m rest hc
  have hrmem : pickLongest m rest ∈ candidates args := by
    rw [hc]
    exact pickLongest_mem m rest
  have hrcm : pickLongest m rest ∈ commands_map := (List.mem_filter.1 hrmem).1
  have hrtr : ∀ t ∈ (pickLongest m rest).1, truthy (args t) = true := by
    have h2 := (List.mem_filter.1 hrmem).2
    simpa [List.all_eq_true] using h2
  have hlenB : B.length ≤ (pickLongest m rest).1.length := by
    apply pickLongest_ge m rest (B, hB)
    rw [← hc]
    exact hBc
  have hAnodup : A.Nodup := commands_map_paths_nodup _ hAmem
  have hBnodup : B.Nodup := commands_map_paths_nodup _ hBmem
  have hAB : A.length < B.length := by
    have h1 : A.toFinset.card < B.toFinset.card := Finset.card_lt_card hsub
    rwa [List.toFinset_card_of_nodup hAnodup,
      List.toFinset_card_of_nodup hBnodup] at h1
  have hneq : (pickLongest m rest).2 ≠ hA := by
    intro heq
    have hr_eq : pickLongest m rest = (A, hA) :=
      List.inj_on_of_nodup_map commands_map_handlers_nodup hrcm hAmem heq
    have h1 : (pickLongest m rest).1 = A := congrArg Prod.fst hr_eq
    rw [h1] at hlenB
    omega
  constructor
  · rw [hfind]
    intro hcontra
    exact hneq (Option.some.inj hcontra)
  · exact ⟨(pickLongest m rest).1, (pickLongest m rest).2, hfind, hrcm, hrtr,
      hlenB, hneq⟩

theorem C1_longest_match_witness :
    find_matching_command allTrue ≠ Option.some Cmd.override :=
  (C1_longest_match ["override"] ["override", "add"] Cmd.override Cmd.overrideAdd
    allTrue (by decide) (by decide) (by decide) (by decide)).1

/-- C2: when no registered command path has all of its tokens truthy,
the dispatcher returns no match, `Main.run` never dispatches (so no
`Runtime` execution context is constructed), and the caller prints the
version string when `--version` is truthy and the full usage text
otherwise. -/
theorem C2_no_match (args : Args)
    (h : ∀ p ∈ commands_map, ∃ t ∈ p.1, truthy (args t) = false) :
    find_matching_command args = Option.none ∧
    (∀ c, Main.run args ≠ RunOutcome.dispatch c) ∧
    Main.run args =
      (if truthy (args "--version") then RunOutcome.printVersion peruVersion
       else RunOutcome.printUsage) := by
  have hcand : candidates args = [] := by
    rw [candidates, List.filter_eq_nil_iff]
    intro p hp
    obtain ⟨t, ht, htf⟩ := h p hp
    simp only [List.all_eq_true, not_forall]
    exact ⟨t, ht, fun hc => Bool.false_ne_true (htf ▸ hc)⟩
  have hfind : find_matching_command args = Option.none := by
    rw [find_matching_command, hcand]
  have hrun : Main.run args =
      (if truthy (args "--version") then RunOutcome.printVersion peruVersion
       else RunOutcome.printUsage) := by
    rw [Main.run, hfind]
  refine ⟨hfind, ?_, hrun⟩
  intro c hcon
  rw [hrun] at hcon
  by_cases hv : truthy (args "--version")
  · rw [if_pos hv] at hcon
    exact RunOutcome.noConfusion hcon
  · rw [if_neg hv] at hcon
    exact RunOutcome.noConfusion hcon

theorem C2_no_match_witness :
    find_matching_command allFalse = Option.none ∧
    Main.run allFalse = RunOutcome.printUsage := by
  have h := C2_no_match allFalse (by decide)
  refine ⟨h.1, ?_⟩
  rw [h.2.2]
  decide

/-- C3: a registered path is a candidate exactly when every token name
in the path maps to a truthy value in the argument model; a value of
`False`, the empty string, the empty list, or `None` does not count as
present. -/
theorem C3_candidate_iff (args : Args) (p : List String × Cmd) :
    (p ∈ candidates args ↔
      p ∈ commands_map ∧ ∀ t ∈ p.1, truthy (args t) = true) ∧
    truthy (Value.bool false) = false ∧
    truthy (Value.str "") = false ∧
    truthy (Value.strs []) = false ∧
    truthy Value.none = false := by
  refine ⟨?_, rfl, rfl, rfl, rfl⟩
  rw [candidates, List.mem_filter]
  simp [List.all_eq_true]

/-! ### Errors and the `main` boundary -/

/-- The exceptions visible at the `main` boundary. `printable` is a
user-facing `PrintableError` (modelled from the spec: `peru/error.py` is
outside this file's source; the spec says user-facing errors carry a
human-readable message, possibly empty). `keyError` is Python's
`KeyError` raised by `del` on a missing dict key. `other` stands for any
other exception. -/
inductive Err where
  | printable (msg : String)
  | keyError (key : String)
  | other (tag : String)
deriving DecidableEq, Repr

/-- `print_red`: the text written to stdout by printing a message:
wrapped in the red / default-color ANSI escapes exactly when stdout is
an interactive terminal; the message itself ends in a newline (Python
`print`). -/
def print_red (isatty : Bool) (s : String) : String :=
  (if isatty then "\x1b[31m" else "") ++ s ++ "\n" ++
    (if isatty then "\x1b[39m" else "")

/-- The observable outcome of `main`: normal return, `sys.exit(code)`
after printing `printed`, or an uncaught exception propagating out. -/
inductive MainOutcome where
  | normal
  | exits (code : Nat) (printed : String)
  | crash (e : Err)
deriving DecidableEq, Repr

/-- `main`: run the invocation; a `PrintableError` is caught, its
message printed via `print_red` when non-empty (nothing printed when
empty), and the process exits with code 1 either way; every other
exception is not caught here and propagates. -/
def main (r : Except Err Unit) (isatty : Bool) : MainOutcome :=
  match r with
  | .ok _ => .normal
  | .error (.printable msg) =>
      .exits 1 (if msg.isEmpty then "" else print_red isatty msg)
  | .error e => .crash e

/-- Python `del d[key]` on a dict, modelled as an association list with
unique keys: raises `KeyError` when the key is absent, otherwise removes
the entry. -/
def dictDel (d : List (String × String)) (k : String) :
    Except Err (List (String × String)) :=
  match d.lookup k with
  | Option.some _ => .ok (d.eraseP (fun p => p.1 == k))
  | Option.none => .error (.keyError k)

/-- `Main.do_override_delete`: delete the override table entry named by
the `<module>` argument (`del self.runtime.overrides[key]`). -/
def Main.do_override_delete (overrides : List (String × String))
    (args : Args) : Except Err (List (String × String)) :=
  dictDel overrides (getStr (args "<module>"))

/-- C5: deleting an override whose module name is not in the override
table raises a `KeyError`, which is not a user-facing `PrintableError`,
so it is not caught at the `main` layer and propagates as an unrecovered
failure; the command never silently succeeds. -/
theorem C5_override_delete_missing (overrides : List (String × String))
    (key : String) (args : Args) (isatty : Bool)
    (hkey : args "<module>" = Value.str key)
    (habsent : overrides.lookup key = Option.none) :
    Main.do_override_delete overrides args = Except.error (Err.keyError key) ∧
    (∀ msg, Main.do_override_delete overrides args ≠
      Except.error (Err.printable msg)) ∧
    (∀ tbl, Main.do_override_delete overrides args ≠ Except.ok tbl) ∧
    main ((Main.do_override_delete overrides args).map (fun _ => ())) isatty =
      MainOutcome.crash (Err.keyError key) := by
  have h1 : Main.do_override_delete overrides args =
      Except.error (Err.keyError key) := by
    rw [Main.do_override_delete, hkey]
    simp [getStr, dictDel, habsent]
  refine ⟨h1, ?_, ?_, ?_⟩
  · intro msg
    rw [h1]
    simp
  · intro tbl
    rw [h1]
    simp
  · rw [h1]
    rfl

/-- A concrete `override delete modX` argument model. -/
def argsDelX : Args :=
  fun n => if n == "<module>" then Value.str "modX" else Value.none

theorem C5_witness :
    Main.do_override_delete [("modA", "pathA")] argsDelX =
      Except.error (Err.keyError "modX") :=
  (C5_override_delete_missing [("modA", "pathA")] "modX" argsDelX true
    (by decide) (by decide)).1

/-- C6: a `PrintableError` makes `main` exit with code 1; a non-empty
message is printed, colorized exactly when stdout is an interactive
terminal; an empty message prints nothing but still exits 1; any other
exception is not caught and propagates. -/
theorem C6_printable_exit (msg tag : String) (isatty : Bool) :
    (msg.isEmpty = false →
      main (Except.error (Err.printable msg)) isatty =
        MainOutcome.exits 1 (print_red isatty msg)) ∧
    main (Except.error (Err.printable "")) isatty = MainOutcome.exits 1 "" ∧
    main (Except.error (Err.keyError tag)) isatty =
      MainOutcome.crash (Err.keyError tag) ∧
    main (Except.error (Err.other tag)) isatty =
      MainOutcome.crash (Err.other tag) ∧
    main (Except.ok ()) isatty = MainOutcome.normal ∧
    print_red true msg = "\x1b[31m" ++ msg ++ "\n" ++ "\x1b[39m" ∧
    print_red false msg = msg ++ "\n" := by
  refine ⟨?_, rfl, rfl, rfl, rfl, ?_, ?_⟩
  · intro hm
    simp [main, hm]
  · simp [print_red]
  · simp [print_red]

theorem C6_witness :
    main (Except.error (Err.printable "boom")) false =
      MainOutcome.exits 1 "boom\n" := by
  rw [(C6_printable_exit "boom" "t" false).1 (by decide)]
  rfl

/-! ### The reup handler -/

/-- Modelled from the spec: `resolver.get_modules` (outside this file's
source) maps the requested module names to module objects; the spec says
`reup modA modB` processes exactly the named modules in the order given,
so the resolver returns them in request order. Modules are identified
here by their names. -/
def resolver.get_modules (names : List String) : List String := names

/-- The loop `for module in modules: module.reup(runtime)`: returns the
modules whose reup operation was invoked, in order, together with the
first error raised (if any); iteration stops at the first failure and
later modules are never processed. -/
def runReups (reup : String → Except Err Unit) :
    List String → List String × Option Err
  | [] => ([], Option.none)
  | m :: ms =>
      match reup m with
      | .error e => ([m], Option.some e)
      | .ok _ =>
          let r := runReups reup ms
          (m :: r.1, r.2)

/-- `Main.do_reup`: with a falsy `<modules>` argument iterate over all
known modules (`resolver.get_all_modules`, whose answer is the oracle
parameter `allModules`), otherwise over the modules named by the
argument; run each module's reup in sequence. -/
def Main.do_reup (allModules : List String)
    (reup : String → Except Err Unit) (args : Args) :
    List String × Option Err :=
  let modules :=
    if !truthy (args "<modules>") then allModules
    else resolver.get_modules (getStrs (args "<modules>"))
  runReups reup modules

theorem runReups_ok (reup : String → Except Err Unit) (ms : List String)
    (h : ∀ m ∈ ms, reup m = Except.ok ()) :
    runReups reup ms = (ms, Option.none) := by
  induction ms with
  | nil => rfl
  | cons m ms ih =>
      have hm : reup m = Except.ok () := h m (by simp)
      have hrest := ih (fun x hx => h x (List.mem_cons_of_mem _ hx))
      simp [runReups, hm, hrest]

theorem runReups_stops (reup : String → Except Err Unit)
    (pre : List String) (bad : String) (post : List String) (e : Err)
    (hpre : ∀ m ∈ pre, reup m = Except.ok ())
    (hbad : reup bad = Except.error e) :
    runReups reup (pre ++ bad :: post) = (pre ++ [bad], Option.some e) := by
  induction pre with
  | nil => simp [runReups, hbad]
  | cons m pre ih =>
      have hm : reup m = Except.ok () := hpre m (by simp)
      have hrest := ih (fun x hx => hpre x (List.mem_cons_of_mem _ hx))
      simp [runReups, hm, hrest]

/-- C4: with an empty explicit `<modules>` list, reup iterates over all
known modules in the resolver's order; with a non-empty list, over
exactly the named modules in the order given. Iteration is sequential:
every module up to and including the first failing one has its reup
invoked exactly once, the first failure aborts the command, and later
modules are never processed; with no failure every module is processed. -/
theorem C4_reup_iteration (allModules names : List String)
    (reup : String → Except Err Unit) (args : Args)
    (hmods : args "<modules>" = Value.strs names) :
    Main.do_reup allModules reup args =
      runReups reup (if names.isEmpty then allModules else names) ∧
    ((∀ m ∈ (if names.isEmpty then allModules else names),
        reup m = Except.ok ()) →
      Main.do_reup allModules reup args =
        ((if names.isEmpty then allModules else names), Option.none)) ∧
    (∀ pre bad post e,
      (if names.isEmpty then allModules else names) = pre ++ bad :: post →
      (∀ m ∈ pre, reup m = Except.ok ()) → reup bad = Except.error e →
      Main.do_reup allModules reup args = (pre ++ [bad], Option.some e)) := by
  have h0 : Main.do_reup allModules reup args =
      runReups reup (if names.isEmpty then allModules else names) := by
    rw [Main.do_reup, hmods]
    by_cases hn : names.isEmpty
    · simp [truthy, hn]
    · simp [truthy, hn, getStrs, resolver.get_modules]
  refine ⟨h0, ?_, ?_⟩
  · intro hok
    rw [h0]
    exact runReups_ok reup _ hok
  · intro pre bad post e hsplit hpre hbad
    rw [h0, hsplit]
    exact runReups_stops reup pre bad post e hpre hbad

/-- A reup collaborator that fails exactly on the module named `bad`. -/
def reupOracle : String → Except Err Unit :=
  fun m => if m == "bad" then Except.error (Err.other "fail") else Except.ok ()

/-- A concrete `reup a bad c` argument model. -/
def argsReup : Args :=
  fun n => if n == "<modules>" then Value.strs ["a", "bad", "c"] else Value.none

theorem C4_witness :
    Main.do_reup ["x"] reupOracle argsReup =
      (["a", "bad"], Option.some (Err.other "fail")) :=
  (C4_reup_iteration ["x"] ["a", "bad", "c"] reupOracle argsReup
    (by decide)).2.2 ["a"] "bad" ["c"] (Err.other "fail")
    (by decide)
    (by
      intro m hm
      rw [List.mem_singleton] at hm
      subst hm
      rfl)
    (by rfl)

/-! ### The copy handler -/

/-- `Main.do_copy`: choose the destination — the `tempfile.mkdtemp`
result (the oracle parameter `tmpdir`; per its contract the stdlib
creates it as a fresh, previously-nonexistent directory) when `<dest>`
is falsy, the `<dest>` argument otherwise — then resolve the `<target>`
argument to a tree and export the tree to the destination, printing the
destination afterwards only when no explicit `<dest>` was given.
Returns the export calls made (tree, destination, force), the lines
printed on stdout, and the first error raised (if any); an error
short-circuits everything after the raising call. -/
def Main.do_copy (tmpdir : String) (get_tree : String → Except Err String)
    (export_tree : String → String → Bool → Except Err Unit)
    (force : Bool) (args : Args) :
    List (String × String × Bool) × List String × Option Err :=
  let dest := if !truthy (args "<dest>") then tmpdir else getStr (args "<dest>")
  match get_tree (getStr (args "<target>")) with
  | .error e => ([], [], Option.some e)
  | .ok tree =>
      match export_tree tree dest force with
      | .error e => ([(tree, dest, force)], [], Option.some e)
      | .ok _ =>
          ([(tree, dest, force)],
            if !truthy (args "<dest>") then [dest] else [], Option.none)

/-- C7: on a successful copy with no `<dest>` argument, the temporary
directory returned by `mkdtemp` is the export destination and exactly
its path is printed, as the single output line; with an explicit
`<dest>` that destination is used and nothing is printed. -/
theorem C7_copy_dest (tmpdir target tree : String)
    (get_tree : String → Except Err String)
    (export_tree : String → String → Bool → Except Err Unit)
    (force : Bool) (args : Args)
    (htarget : args "<target>" = Value.str target)
    (htree : get_tree target = Except.ok tree) :
    (truthy (args "<dest>") = false →
      export_tree tree tmpdir force = Except.ok () →
      Main.do_copy tmpdir get_tree export_tree force args =
        ([(tree, tmpdir, force)], [tmpdir], Option.none)) ∧
    (∀ d, args "<dest>" = Value.str d → d ≠ "" →
      export_tree tree d force = Except.ok () →
      Main.do_copy tmpdir get_tree export_tree force args =
        ([(tree, d, force)], [], Option.none)) := by
  constructor
  · intro hdest hexp
    rw [Main.do_copy, htarget]
    simp [getStr, hdest, htree, hexp]
  · intro d hd hne hexp
    have hd_e : d.isEmpty = false := by
      cases he : d.isEmpty
      · rfl
      · exact absurd ((String.isEmpty_iff d).mp he) hne
    rw [Main.do_copy, htarget, hd]
    simp [getStr, truthy, hd_e, htree, hexp]

/-- C10: with no `<dest>` given, nothing is printed unless the export
completed: if tree resolution raises, no export happens and nothing is
printed; if the export raises, the export was attempted (the temporary
directory having already been created) but nothing is printed. -/
theorem C10_copy_no_print_on_failure (tmpdir target tree : String) (e : Err)
    (get_tree : String → Except Err String)
    (export_tree : String → String → Bool → Except Err Unit)
    (force : Bool) (args : Args)
    (htarget : args "<target>" = Value.str target)
    (hdest : truthy (args "<dest>") = false) :
    (get_tree target = Except.error e →
      Main.do_copy tmpdir get_tree export_tree force args =
        ([], [], Option.some e)) ∧
    (get_tree target = Except.ok tree →
      export_tree tree tmpdir force = Except.error e →
      Main.do_copy tmpdir get_tree export_tree force args =
        ([(tree, tmpdir, force)], [], Option.some e)) := by
  constructor
  · intro htree
    rw [Main.do_copy, htarget]
    simp [getStr, htree]
  · intro htree hexp
    rw [Main.do_copy, htarget]
    simp [getStr, hdest, htree, hexp]

/-- A concrete `copy tgt` argument model with no destination. -/
def argsCopyNoDest : Args :=
  fun n => if n == "<target>" then Value.str "tgt" else Value.none

/-- A tree-resolution collaborator that succeeds on every target. -/
def getTreeOracle : String → Except Err String :=
  fun t => Except.ok ("tree-" ++ t)

/-- An export collaborator that always succeeds. -/
def exportOk : String → String → Bool → Except Err Unit :=
  fun _ _ _ => Except.ok ()

/-- An export collaborator that always fails. -/
def exportFails : String → String → Bool → Except Err Unit :=
  fun _ _ _ => Except.error (Err.other "export failed")

theorem C7_copy_dest_witness :
    Main.do_copy "/tmp/peru_copy_x" getTreeOracle exportOk false argsCopyNoDest =
      ([("tree-tgt", "/tmp/peru_copy_x", false)], ["/tmp/peru_copy_x"],
        Option.none) :=
  (C7_copy_dest "/tmp/peru_copy_x" "tgt" "tree-tgt" getTreeOracle exportOk false
    argsCopyNoDest (by decide) (by rfl)).1 (by decide) (by rfl)

theorem C10_copy_witness :
    Main.do_copy "/tmp/peru_copy_x" getTreeOracle exportFails false argsCopyNoDest =
      ([("tree-tgt", "/tmp/peru_copy_x", false)], [],
        Option.some (Err.other "export failed")) :=
  (C10_copy_no_print_on_failure "/tmp/peru_copy_x" "tgt" "tree-tgt"
    (Err.other "export failed") getTreeOracle exportFails false argsCopyNoDest
    (by decide) (by decide)).2 (by rfl) (by rfl)

/-! ### The sync and clean handlers -/

/-- An import mapping, the type of `apply_imports`'s optional explicit
argument; the Python literal `{}` passed by clean is the empty one. -/
def ImportMap : Type := List (String × String)

/-- `Main.do_sync`: call the local module's `apply_imports` collaborator
with no explicit import set — the collaborator's default supplies the
computed full set. -/
def Main.do_sync {α : Type} (apply_imports : Option ImportMap → α) : α :=
  apply_imports Option.none

/-- `Main.do_clean`: call the same `apply_imports` collaborator with the
explicitly empty import set. -/
def Main.do_clean {α : Type} (apply_imports : Option ImportMap → α) : α :=
  apply_imports (Option.some ([] : ImportMap))

/-- C8: clean and sync invoke the same underlying apply-imports
operation — whatever collaborator implements it, both handlers reduce to
a single call of it — with clean passing the explicitly empty import set
and sync passing no explicit set, and those two arguments are distinct
(clean's empty set is explicit, not the collaborator default). -/
theorem C8_clean_sync_same_op {α : Type} (apply_imports : Option ImportMap → α) :
    Main.do_sync apply_imports = apply_imports Option.none ∧
    Main.do_clean apply_imports = apply_imports (Option.some ([] : ImportMap)) ∧
    (Option.some ([] : ImportMap)) ≠ (Option.none : Option ImportMap) :=
  ⟨rfl, rfl, Option.some_ne_none _⟩

/-! ### The override listing handler -/

/-- Modelled from the spec: `Runtime.get_override` (outside this file's
source) returns the override path stored in the Override Table for the
given module name. -/
def Runtime.get_override (overrides : List (String × String)) (m : String) :
    String :=
  (overrides.lookup m).getD ""

/-- `Main.do_override`: iterate the override table's module names in
sorted order (`sorted(self.runtime.overrides)`) and print one line per
entry, the module name followed by a colon, a space and the override
path; returns the printed lines. -/
def Main.do_override (overrides : List (String × String)) : List String :=
  ((overrides.map Prod.fst).mergeSort).map
    (fun m => m ++ ": " ++ Runtime.get_override overrides m)

theorem lookup_of_mem_of_nodupKeys {l : List (String × String)}
    (hnd : (l.map Prod.fst).Nodup) {p : String × String} (hp : p ∈ l) :
    l.lookup p.1 = Option.some p.2 := by
  induction l with
  | nil => simp at hp
  | cons q l ih =>
      obtain ⟨q1, q2⟩ := q
      rw [List.map_cons, List.nodup_cons] at hnd
      rcases List.mem_cons.1 hp with h | h
      · subst h
        simp [List.lookup]
      · have hq : (p.1 == q1) = false := by
          rw [beq_eq_false_iff_ne]
          intro he
          have hmem : p.1 ∈ l.map Prod.fst := List.mem_map_of_mem Prod.fst h
          rw [he] at hmem
          exact hnd.1 hmem
        rw [List.lookup, hq]
        exact ih hnd.2 h

/-- C9: bare override prints exactly one line per override-table entry
and nothing else — the output is the image, under the `name: path`
line-formatting map, of the sorted permutation of the table's module
names, and every entry's own `name: path` line occurs in it. -/
theorem C9_override_listing (overrides : List (String × String))
    (hnd : (overrides.map Prod.fst).Nodup) :
    ((overrides.map Prod.fst).mergeSort).Perm (overrides.map Prod.fst) ∧
    List.Sorted (· ≤ ·) ((overrides.map Prod.fst).mergeSort) ∧
    (Main.do_override overrides).length = overrides.length ∧
    ∀ p ∈ overrides, (p.1 ++ ": " ++ p.2) ∈ Main.do_override overrides := by
  refine ⟨List.mergeSort_perm _ _, List.sorted_mergeSort' _, ?_, ?_⟩
  · rw [Main.do_override, List.length_map,
      (List.mergeSort_perm (overrides.map Prod.fst) _).length_eq,
      List.length_map]
  · intro p hp
    have hkey : p.1 ∈ (overrides.map Prod.fst).mergeSort :=
      ((List.mergeSort_perm _ _).mem_iff).2 (List.mem_map_of_mem _ hp)
    have hline := List.mem_map_of_mem
      (fun m => m ++ ": " ++ Runtime.get_override overrides m) hkey
    have hlook : Runtime.get_override overrides p.1 = p.2 := by
      rw [Runtime.get_override, lookup_of_mem_of_nodupKeys hnd hp]
      rfl
    rw [Main.do_override, ← hlook]
    exact hline

theorem C9_override_listing_witness :
    (Main.do_override [("b", "p2"), ("a", "p1")]).length = 2 :=
  (C9_override_listing [("b", "p2"), ("a", "p1")] (by decide)).2.2.1

end Peru
